import Mathlib

/-!
Shallow embedding of the stateful-observable library (TypeScript/RxJS).

The embedding covers:
* the tri-state response envelope (src/response-container.ts, src/types.ts);
* the rolling LRU cache (src/cache.ts, createCache);
* finite RxJS notification traces plus the operators the library builds on
  (src/operators.ts: catchResponseError, pipeValue, pipeError);
* a per-causal-event step semantics of the core engine
  (src/statefulObservable.ts: statefulObservable, valueOrError, reload);
* the multi-stream combinator (src/utils.ts: combineStatefulObservables);
* the per-node unhandled-error diagnostics (src/chaining.ts:
  fillStatefulObservable).

All definitions are executable; theorems at the end settle the individual
claims about the specification.
-/

namespace StatefulObs

/-! Response envelope (src/response-container.ts)

In TypeScript a success is the raw payload itself and the Loading/Error
variants are objects tagged with a unique symbol; `isSuccess` is defined as
"neither loading nor error".  We model the closed union as an inductive. -/

inductive Resp (T E : Type) where
  | loading : Resp T E
  | error (e : E) : Resp T E
  | value (t : T) : Resp T E
  deriving DecidableEq, Repr

def isLoading {T E : Type} : Resp T E → Bool
  | .loading => true
  | _ => false

def isError {T E : Type} : Resp T E → Bool
  | .error _ => true
  | _ => false

/-- isSuccess(r) = !isLoading(r) && !isError(r) in the source. -/
def isSuccess {T E : Type} (r : Resp T E) : Bool :=
  !isLoading r && !isError r

/-! Rolling cache (src/cache.ts, createCache)

A JavaScript Map preserves insertion order; we model it as an association
list whose head is the oldest entry and whose last element is the newest
(most recently used) entry.  Keys reachable through set are unique, exactly
as in a Map. -/

structure RollingCache (V : Type) where
  capacity : Nat
  entries : List (String × V)
  deriving DecidableEq, Repr

/-- createCache: capacity = Math.max(0, Math.floor(size)); the size may be
negative or fractional, so it is taken as a rational. -/
def createCache (V : Type) (size : ℚ) : RollingCache V :=
  { capacity := (max 0 ⌊size⌋).toNat, entries := [] }

/-- Map.delete(key): remove the (single) entry with the given key. -/
def removeKey {V : Type} (key : String) : List (String × V) → List (String × V)
  | [] => []
  | p :: ps => if p.1 = key then ps else p :: removeKey key ps

/-- Map.get(key): the stored value, or undefined. -/
def lookupKey {V : Type} (key : String) : List (String × V) → Option V
  | [] => none
  | p :: ps => if p.1 = key then some p.2 else lookupKey key ps

/-- The eviction loop of set: while (map.size > capacity) delete the oldest
key (the head of the insertion-ordered list). -/
def evictOldest {V : Type} (cap : Nat) : List (String × V) → List (String × V)
  | [] => []
  | p :: ps => if ps.length + 1 > cap then evictOldest cap ps else p :: ps

/-- set(key, value): no-op at capacity 0; if the key exists delete it so the
reinsertion moves it to the newest position; insert; evict oldest entries
until within capacity. -/
def RollingCache.set {V : Type} (c : RollingCache V) (key : String) (v : V) :
    RollingCache V :=
  if c.capacity = 0 then c
  else
    let removed := if c.entries.any (fun p => p.1 = key)
      then removeKey key c.entries else c.entries
    { c with entries := evictOldest c.capacity (removed ++ [(key, v)]) }

/-- get(key): on miss return null without side effects; on hit delete and
reinsert the entry (promoting it to the newest position) and return it.
The returned pair is (result, cache after the call). -/
def RollingCache.get {V : Type} (c : RollingCache V) (key : String) :
    Option V × RollingCache V :=
  match lookupKey key c.entries with
  | none => (none, c)
  | some v => (some v, { c with entries := removeKey key c.entries ++ [(key, v)] })

/-- reset(): map.clear(). -/
def RollingCache.reset {V : Type} (c : RollingCache V) : RollingCache V :=
  { c with entries := [] }

/-- One external cache operation, for stating invariants over arbitrary
call sequences. -/
inductive CacheOp (V : Type) where
  | set (key : String) (v : V)
  | get (key : String)
  | reset
  deriving Repr

def applyOp {V : Type} (c : RollingCache V) : CacheOp V → RollingCache V
  | .set k v => c.set k v
  | .get k => (c.get k).2
  | .reset => c.reset

def insertAll {V : Type} (c : RollingCache V) (kvs : List (String × V)) :
    RollingCache V :=
  kvs.foldl (fun acc kv => acc.set kv.1 kv.2) c

/-! Finite notification traces

An RxJS observable delivers next values and at most one terminal signal
(an error or a completion).  We model a finite run of a stream as a list of
notifications; anything after the first terminal is unreachable and cut by
truncTerm.  X is the type of thrown/raised values carried by the terminal
error signal. -/

inductive Notif (T X : Type) where
  | next (t : T) : Notif T X
  | fail (x : X) : Notif T X
  | complete : Notif T X
  deriving DecidableEq, Repr

/-- Nothing is observable after the first terminal signal. -/
def truncTerm {T X : Type} : List (Notif T X) → List (Notif T X)
  | [] => []
  | .next t :: rest => .next t :: truncTerm rest
  | .fail x :: _ => [.fail x]
  | .complete :: _ => [.complete]

/-- catchResponseError (src/operators.ts): catchError replaces a terminal
error with of({state: errorSymbol, error}), i.e. one Error envelope value
followed by completion; next values pass unchanged. -/
def catchResponseErrorT {T X : Type} :
    List (Notif (Resp T X) X) → List (Notif (Resp T X) X)
  | [] => []
  | .next r :: rest => .next r :: catchResponseErrorT rest
  | .fail x :: _ => [.next (.error x), .complete]
  | .complete :: _ => [.complete]

/-- What concatMap forwards from one inner observable: inner next values are
re-emitted, an inner error terminates the outer stream, an inner completion
just moves on to the next inner observable. -/
def innerEmissions {T X : Type} : List (Notif T X) → List (Notif T X)
  | [] => []
  | .next t :: rest => .next t :: innerEmissions rest
  | .fail x :: _ => [.fail x]
  | .complete :: _ => []

/-- An RxJS map(f) whose projection f may throw: a throw becomes a terminal
error signal of the stream. -/
def mapThrowH {A B X : Type} (f : A → Except X B) : Notif A X → List (Notif B X)
  | .next a =>
      match f a with
      | .ok b => [.next b]
      | .error x => [.fail x]
  | .fail x => [.fail x]
  | .complete => [.complete]

/-- Handler composition: every output notification of the first per-event
handler is fed through the second (stateless operators only). -/
def hseq {A B C X : Type} (h₁ : Notif A X → List (Notif B X))
    (h₂ : Notif B X → List (Notif C X)) (n : Notif A X) : List (Notif C X) :=
  (h₁ n).flatMap h₂

/-! pipeValue (src/operators.ts)

raw.pipe(filter(isSuccess)) piped through
concatMap(v => applyPipe(of(v), operations).pipe(catchResponseError()))
is merged (second) with raw.pipe(filter(r => !isSuccess(r))) (first).
Both merge branches subscribe to the same multicast upstream, so for each
upstream notification the first branch reacts, then the second.  A user
operator chain is abstracted by the trace `ops t` that of(t) piped through
the operations produces.  In the source a success envelope is the raw
payload itself, so filter(isSuccess) hands the payload directly to the
operator chain. -/

/-- merge branch 1 of pipeValue: filter(r => !isSuccess(r)) — Loading and
Error envelopes bypass; the envelope carries no payload so it re-types
from Resp T X to Resp U X unchanged. -/
def notValueBranchH {T U X : Type} : Notif (Resp T X) X → List (Notif (Resp U X) X)
  | .next .loading => [.next .loading]
  | .next (.error e) => [.next (.error e)]
  | .next (.value _) => []
  | .fail x => [.fail x]
  | .complete => [.complete]

/-- merge branch 2 of pipeValue: filter(isSuccess) then
concatMap(v => applyPipe(of(v), operations).pipe(catchResponseError())). -/
def pipedValueBranchH {T U X : Type} (ops : T → List (Notif (Resp U X) X)) :
    Notif (Resp T X) X → List (Notif (Resp U X) X)
  | .next (.value t) => innerEmissions (catchResponseErrorT (ops t))
  | .next _ => []
  | .fail x => [.fail x]
  | .complete => [.complete]

/-- pipeValue: merge(rawNotValue, rawPipedValue). -/
def pipeValueT {T U X : Type} (ops : T → List (Notif (Resp U X) X))
    (src : List (Notif (Resp T X) X)) : List (Notif (Resp U X) X) :=
  truncTerm (src.flatMap fun n => notValueBranchH n ++ pipedValueBranchH ops n)

/-! pipeError (src/operators.ts)

rawError = raw.pipe(filter(isError), map(r => r.error)); the caller's
operators apply to that stream of error payloads and the result is
re-wrapped via map(error => ({state: errorSymbol, error})); the result is
merged (first) with raw.pipe(filter(r => !isError(r))) (second).  There is
no catchResponseError anywhere on this path. -/

/-- filter(isError) then map(r => r.error). -/
def errPayloadH {T E X : Type} : Notif (Resp T E) X → List (Notif E X)
  | .next (.error e) => [.next e]
  | .next _ => []
  | .fail x => [.fail x]
  | .complete => [.complete]

/-- map(error => ({state: errorSymbol, error})). -/
def wrapErrorH {T E₂ X : Type} : Notif E₂ X → List (Notif (Resp T E₂) X)
  | .next e => [.next (.error e)]
  | .fail x => [.fail x]
  | .complete => [.complete]

/-- merge branch 2 of pipeError: filter(r => !isError(r)); success payloads
keep their type, the error envelope payload re-types. -/
def notErrorBranchH {T E E₂ X : Type} : Notif (Resp T E) X → List (Notif (Resp T E₂) X)
  | .next .loading => [.next .loading]
  | .next (.error _) => []
  | .next (.value t) => [.next (.value t)]
  | .fail x => [.fail x]
  | .complete => [.complete]

/-- pipeError: merge(rawPipedError, rawNotError); the caller's operator
chain is abstracted as a stateless per-notification handler opsH. -/
def pipeErrorT {T E E₂ X : Type} (opsH : Notif E X → List (Notif E₂ X))
    (src : List (Notif (Resp T E) X)) : List (Notif (Resp T E₂) X) :=
  truncTerm (src.flatMap fun n =>
    hseq (hseq errPayloadH opsH) (wrapErrorH (T := T)) n ++ notErrorBranchH n)

/-! Core engine (src/statefulObservable.ts)

The engine wires
  raw = merge(loading$, valueOrError$)
where both branches react to each combineLatest([source$, cache$]) trigger:
loading$ maps every trigger to a Loading envelope (and catches source
errors), and valueOrError$ computes the cache key, consults the cache and
otherwise runs the loader.  We give a step semantics over the causal events
of one hot source: for each event both branches react in merge subscription
order (loading$ first).

One invocation of the loader is abstracted by its outcome: it either
returns a producer that succeeds with one response, returns a producer that
fails (caught by the catchResponseError inside the projected observable,
src line 147), or throws synchronously during the invocation itself (which
the mapOperator surfaces as a stream error caught only by the outer
catchResponseError, src line 150 — catchError then switches valueOrError$
to a one-shot of(...) which completes, so the settled branch is dead from
then on).

JavaScript truthiness decides both `if (key)` (empty-string keys disable
caching) and `if (cached)` (a falsy cached value is not reused); for the
response type it is supplied as the predicate `truthy`. -/

inductive LoaderOutcome (R E : Type) where
  | succeeds (r : R)
  | producerFails (e : E)
  | throws (e : E)

structure EngineConfig (Input R E : Type) where
  loader : Input → LoaderOutcome R E
  cacheKey : Input → List String
  cacheSize : ℚ
  truthy : R → Bool

structure EngineState (Input R : Type) where
  cache : RollingCache R
  /-- valueOrError$ has completed (after its outer catchResponseError fired). -/
  veDead : Bool
  /-- the source stream has terminated with an error. -/
  srcDead : Bool
  /-- the latest source value retained by combineLatest. -/
  lastInput : Option Input

def initState {Input R E : Type} (cfg : EngineConfig Input R E) : EngineState Input R :=
  { cache := createCache R cfg.cacheSize, veDead := false, srcDead := false,
    lastInput := none }

/-- Result of the valueOrError$ branch for one trigger: the settled
envelope it emits, the cache afterwards, how many times the loader was
invoked, and whether the branch completed (outer catchResponseError). -/
structure SettleResult (R E : Type) where
  settled : Resp R E
  cache : RollingCache R
  loaderCalls : Nat
  dead : Bool

/-- from(makeObservableInput(input)).pipe(tap({next: r => cache.set(key, r)}),
catchResponseError()) — note the set is unconditional, it does not check
that the key is non-empty. -/
def runLoader {Input R E : Type} (cfg : EngineConfig Input R E)
    (cache : RollingCache R) (i : Input) (key : String) : SettleResult R E :=
  match cfg.loader i with
  | .succeeds r => ⟨.value r, cache.set key r, 1, false⟩
  | .producerFails e => ⟨.error e, cache, 1, false⟩
  | .throws e => ⟨.error e, cache, 1, true⟩

/-- The projection of mapOperator: key = cacheKey(input).join("|");
if (key) consult the cache (a hit is only used if the cached value is
truthy — and cache.get promotes the entry whether or not it is used);
otherwise run the loader. -/
def settleEvent {Input R E : Type} (cfg : EngineConfig Input R E)
    (cache : RollingCache R) (i : Input) : SettleResult R E :=
  let key := String.intercalate "|" (cfg.cacheKey i)
  if key ≠ "" then
    match cache.get key with
    | (some v, c') =>
        if cfg.truthy v then ⟨.value v, c', 0, false⟩
        else runLoader cfg c' i key
    | (none, c') => runLoader cfg c' i key
  else runLoader cfg cache i key

/-- Causal events on the engine: a new source value, a source failure, or a
reload() call (cache$.next(createCache(cacheSize))). -/
inductive EngineEvent (Input E : Type) where
  | emit (i : Input)
  | srcError (e : E)
  | reload

/-- One causal event processed by raw = merge(loading$, valueOrError$).
Returns (notifications emitted on raw, new state, loader invocations).
loading$ is the first merge argument and reacts first; a Loading envelope
is therefore observable before the settled envelope even when the latter
is a synchronous cache hit.  A source error is caught by the
catchResponseError of each still-live branch (each emitting one Error
envelope) after which both branches, and hence raw, complete. -/
def step {Input R E : Type} (cfg : EngineConfig Input R E)
    (st : EngineState Input R) (ev : EngineEvent Input E) :
    List (Notif (Resp R E) E) × EngineState Input R × Nat :=
  if st.srcDead then ([], st, 0)
  else
    match ev with
    | .emit i =>
        if st.veDead then
          ([.next .loading], { st with lastInput := some i }, 0)
        else
          let s := settleEvent cfg st.cache i
          ([.next .loading, .next s.settled],
           { st with cache := s.cache, veDead := s.dead, lastInput := some i },
           s.loaderCalls)
    | .srcError e =>
        (.next (.error e) :: (if st.veDead then [] else [.next (.error e)])
           ++ [.complete],
         { st with srcDead := true, veDead := true }, 0)
    | .reload =>
        let fresh := createCache R cfg.cacheSize
        match st.lastInput with
        | none => ([], { st with cache := fresh }, 0)
        | some i =>
            if st.veDead then
              ([.next .loading], { st with cache := fresh }, 0)
            else
              let s := settleEvent cfg fresh i
              ([.next .loading, .next s.settled],
               { st with cache := s.cache, veDead := s.dead },
               s.loaderCalls)

/-- Run the engine over a list of causal events, collecting the raw trace
and the total number of loader invocations. -/
def runEngine {Input R E : Type} (cfg : EngineConfig Input R E) :
    EngineState Input R → List (EngineEvent Input E) →
    List (Notif (Resp R E) E) × EngineState Input R × Nat
  | st, [] => ([], st, 0)
  | st, ev :: evs =>
      let out := step cfg st ev
      let rest := runEngine cfg out.2.1 evs
      (out.1 ++ rest.1, rest.2.1, out.2.2 + rest.2.2)

/-! Combinator (src/utils.ts, combineStatefulObservables)

Per tuple of latest envelopes: any Loading wins, else any Error produces an
Error whose payload is the positional array
events.map(x => isError(x) ? x.error : false), else the reducer is applied
to the tuple of values (a success envelope is its payload).  The JavaScript
literal `false` in a slot is modelled by `none`. -/

def errSlot {T E : Type} : Resp T E → Option E
  | .error e => some e
  | _ => none

def valueSlot {T E : Type} : Resp T E → Option T
  | .value t => some t
  | _ => none

def combineEnvelopes {T E R₂ : Type} (events : List (Resp T E))
    (reducer : List T → R₂) : Resp R₂ (List (Option E)) :=
  if events.any (fun x => isLoading x) then .loading
  else if events.any (fun x => isError x) then
    .error (events.map errSlot)
  else .value (reducer (events.filterMap valueSlot))

/-! Diagnostics (src/chaining.ts, fillStatefulObservable)

Every node taps its own raw stream: on an Error envelope, when no entry of
the shared meta list has a non-zero errorSubscriptions counter, it logs one
unhandled-error warning carrying its own name and index.  All nodes of one
lineage share the meta list; subscribing to any node's error stream runs
meta.forEach(m => m.errorSubscriptions++). -/

def nodeWarnings {T E : Type} (node : String × Nat) (meta : List Int)
    (r : Resp T E) : List (String × Nat × E) :=
  match r with
  | .error e => if meta.any (fun m => m ≠ 0) then [] else [(node.1, node.2, e)]
  | _ => []

/-- An envelope flowing from the lineage root through every derived node:
each node applies its own sideEffect tap. -/
def lineageWarnings {T E : Type} (nodes : List (String × Nat)) (meta : List Int)
    (r : Resp T E) : List (String × Nat × E) :=
  nodes.flatMap (fun nd => nodeWarnings nd meta r)

/-- Subscribing to an error$ stream anywhere in the lineage:
meta.forEach(m => m.errorSubscriptions++). -/
def subscribeError (meta : List Int) : List Int :=
  meta.map (fun m => m + 1)

/-! Concrete engine instances used in closed evaluations -/

/-- An engine whose loader succeeds with the falsy number 0 under a
constant non-empty cache key (truthy models JS number truthiness). -/
def cfgFalsy : EngineConfig Nat Int String :=
  { loader := fun _ => .succeeds 0, cacheKey := fun _ => ["k"],
    cacheSize := 42, truthy := fun v => v != 0 }

/-- Start state for cfgFalsy: capacity 42, empty cache. -/
def stFalsy : EngineState Nat Int :=
  { cache := ⟨42, []⟩, veDead := false, srcDead := false, lastInput := none }

/-- An engine whose loader always succeeds with a truthy value. -/
def cfgHit : EngineConfig Nat Nat String :=
  { loader := fun i => .succeeds (2 * i), cacheKey := fun _ => ["k"],
    cacheSize := 42, truthy := fun _ => true }

/-- A state of cfgHit in which the key "k" is already cached, so the next
request settles as a synchronous cache hit. -/
def stHit : EngineState Nat Nat :=
  { cache := ⟨42, [("k", 7)]⟩, veDead := false, srcDead := false,
    lastInput := some 1 }

/-- An engine of cache capacity 1 whose key function yields a non-empty key
for input 1 and an empty key array for every other input. -/
def cfgEmptyKey : EngineConfig Nat Nat String :=
  { loader := fun i => .succeeds (i + 10),
    cacheKey := fun i => if i = 1 then ["a"] else [],
    cacheSize := 1, truthy := fun _ => true }

/-- Start state of capacity 1. -/
def stCap1 : EngineState Nat Nat :=
  { cache := ⟨1, []⟩, veDead := false, srcDead := false, lastInput := none }

/-- An engine whose loader throws synchronously on every invocation. -/
def cfgThrows : EngineConfig Nat Nat String :=
  { loader := fun _ => .throws "err", cacheKey := fun _ => [],
    cacheSize := 42, truthy := fun _ => true }

/-- Start state of capacity 42. -/
def stCap42 : EngineState Nat Nat :=
  { cache := ⟨42, []⟩, veDead := false, srcDead := false, lastInput := none }

/-! Cache lemmas -/

theorem evictOldest_eq_drop {V : Type} (cap : Nat) (l : List (String × V)) :
    evictOldest cap l = l.drop (l.length - cap) := by
  induction l with
  | nil => simp [evictOldest]
  | cons p ps ih =>
    simp only [evictOldest, List.length_cons]
    split
    · next h =>
      rw [ih]
      have hc : ps.length + 1 - cap = (ps.length - cap) + 1 := by omega
      rw [hc]
      rfl
    · next h =>
      have hc : ps.length + 1 - cap = 0 := by omega
      simp [hc]

theorem evictOldest_length_le {V : Type} (cap : Nat) (l : List (String × V)) :
    (evictOldest cap l).length ≤ cap := by
  rw [evictOldest_eq_drop, List.length_drop]
  omega

theorem removeKey_length {V : Type} (key : String) (l : List (String × V)) (v : V)
    (h : lookupKey key l = some v) :
    (removeKey key l).length + 1 = l.length := by
  induction l with
  | nil => simp [lookupKey] at h
  | cons p ps ih =>
    by_cases hp : p.1 = key
    · simp [removeKey, hp]
    · simp only [lookupKey, hp, if_false] at h
      simp [removeKey, hp, ih h]

theorem set_fresh {V : Type} (c : RollingCache V) (k : String) (v : V)
    (hfresh : c.entries.any (fun p => p.1 = k) = false) (hcap : c.capacity ≠ 0) :
    (c.set k v).entries = evictOldest c.capacity (c.entries ++ [(k, v)]) := by
  simp [RollingCache.set, hcap, hfresh]

theorem set_capacity {V : Type} (c : RollingCache V) (k : String) (v : V) :
    (c.set k v).capacity = c.capacity := by
  unfold RollingCache.set
  split <;> rfl

theorem insertAll_fresh {V : Type} (cap : Nat) (hcap : 1 ≤ cap) :
    ∀ (kvs pref : List (String × V)), ((pref ++ kvs).map Prod.fst).Nodup →
      insertAll ⟨cap, pref.drop (pref.length - cap)⟩ kvs
        = ⟨cap, (pref ++ kvs).drop ((pref ++ kvs).length - cap)⟩ := by
  intro kvs
  induction kvs with
  | nil =>
    intro pref _
    simp [insertAll]
  | cons kv rest ih =>
    intro pref hnd
    obtain ⟨k, v⟩ := kv
    have hknotin : k ∉ pref.map Prod.fst := by
      intro hmem
      simp only [List.map_append, List.map_cons, List.nodup_append] at hnd
      exact hnd.2.2 hmem (List.mem_cons_self k (rest.map Prod.fst))
    have hfresh : ((pref.drop (pref.length - cap)).any (fun p => p.1 = k)) = false := by
      rw [List.any_eq_false]
      intro p hp
      simp only [decide_eq_true_eq]
      intro hpk
      exact hknotin (hpk ▸ List.mem_map_of_mem Prod.fst (List.mem_of_mem_drop hp))
    have hent : (RollingCache.set ⟨cap, pref.drop (pref.length - cap)⟩ k v).entries
        = (pref ++ [(k, v)]).drop ((pref ++ [(k, v)]).length - cap) := by
      rw [set_fresh (V := V) ⟨cap, pref.drop (pref.length - cap)⟩ k v hfresh
        (by show cap ≠ 0; omega)]
      show evictOldest cap (pref.drop (pref.length - cap) ++ [(k, v)]) = _
      rw [evictOldest_eq_drop]
      have hmle : (pref.drop (pref.length - cap) ++ [(k, v)]).length - cap
          ≤ (pref.drop (pref.length - cap)).length := by
        simp only [List.length_append, List.length_drop, List.length_cons,
          List.length_nil]
        omega
      rw [List.drop_append_of_le_length hmle, List.drop_drop]
      have harith : pref.length - cap
            + ((pref.drop (pref.length - cap) ++ [(k, v)]).length - cap)
            = (pref ++ [(k, v)]).length - cap := by
        simp only [List.length_append, List.length_drop, List.length_cons,
          List.length_nil]
        omega
      rw [harith]
      have hle2 : (pref ++ [(k, v)]).length - cap ≤ pref.length := by
        simp only [List.length_append, List.length_cons, List.length_nil]
        omega
      rw [List.drop_append_of_le_length hle2]
    have hstep : (RollingCache.set ⟨cap, pref.drop (pref.length - cap)⟩ k v)
        = ⟨cap, (pref ++ [(k, v)]).drop ((pref ++ [(k, v)]).length - cap)⟩ := by
      conv_lhs => rw [show RollingCache.set ⟨cap, pref.drop (pref.length - cap)⟩ k v
        = ⟨(RollingCache.set ⟨cap, pref.drop (pref.length - cap)⟩ k v).capacity,
           (RollingCache.set ⟨cap, pref.drop (pref.length - cap)⟩ k v).entries⟩
        from rfl]
      rw [hent, set_capacity]
    have hnd2 : (((pref ++ [(k, v)]) ++ rest).map Prod.fst).Nodup := by
      rw [show (pref ++ [(k, v)]) ++ rest = pref ++ (k, v) :: rest by simp]
      exact hnd
    calc insertAll ⟨cap, pref.drop (pref.length - cap)⟩ ((k, v) :: rest)
        = insertAll (RollingCache.set ⟨cap, pref.drop (pref.length - cap)⟩ k v)
            rest := rfl
      _ = insertAll ⟨cap, (pref ++ [(k, v)]).drop ((pref ++ [(k, v)]).length - cap)⟩
            rest := by rw [hstep]
      _ = ⟨cap, ((pref ++ [(k, v)]) ++ rest).drop
            (((pref ++ [(k, v)]) ++ rest).length - cap)⟩ := ih (pref ++ [(k, v)]) hnd2
      _ = ⟨cap, (pref ++ (k, v) :: rest).drop
            ((pref ++ (k, v) :: rest).length - cap)⟩ := by simp

theorem createCache_coe_nat (V : Type) (n : Nat) :
    createCache V (n : ℚ) = ⟨n, []⟩ := by
  have hfl : ⌊(n : ℚ)⌋ = (n : ℤ) := Int.floor_natCast n
  simp only [createCache, hfl, RollingCache.mk.injEq, and_true]
  omega

theorem applyOp_capacity {V : Type} (c : RollingCache V) (op : CacheOp V) :
    (applyOp c op).capacity = c.capacity := by
  cases op with
  | set k v => exact set_capacity c k v
  | get k =>
    show (c.get k).2.capacity = c.capacity
    unfold RollingCache.get
    split <;> rfl
  | reset => rfl

theorem applyOp_length {V : Type} (c : RollingCache V) (op : CacheOp V)
    (h : c.entries.length ≤ c.capacity) :
    (applyOp c op).entries.length ≤ c.capacity := by
  cases op with
  | set k v =>
    show (c.set k v).entries.length ≤ c.capacity
    unfold RollingCache.set
    split
    · exact h
    · exact evictOldest_length_le _ _
  | get k =>
    show (c.get k).2.entries.length ≤ c.capacity
    unfold RollingCache.get
    split
    · exact h
    · next v heq =>
      simp only [List.length_append, List.length_cons, List.length_nil]
      have := removeKey_length k c.entries v heq
      omega
  | reset => exact Nat.zero_le _

theorem foldl_applyOp_inv {V : Type} (ops : List (CacheOp V)) :
    ∀ (c : RollingCache V), c.entries.length ≤ c.capacity →
      (ops.foldl applyOp c).entries.length ≤ (ops.foldl applyOp c).capacity
        ∧ (ops.foldl applyOp c).capacity = c.capacity := by
  induction ops with
  | nil => intro c h; exact ⟨h, rfl⟩
  | cons op rest ih =>
    intro c h
    have h1 : (applyOp c op).entries.length ≤ (applyOp c op).capacity := by
      rw [applyOp_capacity]; exact applyOp_length c op h
    have h2 := ih (applyOp c op) h1
    refine ⟨h2.1, ?_⟩
    show (rest.foldl applyOp (applyOp c op)).capacity = c.capacity
    rw [h2.2, applyOp_capacity]

/-! Claim C9 -/

/-- C9: the rolling cache is a true LRU — after inserting capacity+1
distinct keys via set, exactly the least-recently-used (oldest) key is
evicted and the remaining entries keep their order; a get on a present key
promotes that entry to the most-recently-used position before returning
it; a get on an absent key returns absent and leaves the cache unchanged. -/
theorem lru_cache_correct {V : Type} :
    (∀ (cap : Nat), 1 ≤ cap → ∀ (kvs : List (String × V)),
       (kvs.map Prod.fst).Nodup → kvs.length = cap + 1 →
       (insertAll (createCache V (cap : ℚ)) kvs).entries = kvs.drop 1)
  ∧ (∀ (c : RollingCache V) (k : String) (v : V),
       lookupKey k c.entries = some v →
       c.get k = (some v, { c with entries := removeKey k c.entries ++ [(k, v)] }))
  ∧ (∀ (c : RollingCache V) (k : String),
       lookupKey k c.entries = none → c.get k = (none, c)) := by
  refine ⟨?_, ?_, ?_⟩
  · intro cap hcap kvs hnd hlen
    rw [createCache_coe_nat]
    have h2 : insertAll ⟨cap, []⟩ kvs = ⟨cap, kvs.drop (kvs.length - cap)⟩ := by
      have h := insertAll_fresh cap hcap kvs [] (by simpa using hnd)
      simpa using h
    rw [h2, hlen]
    have hone : cap + 1 - cap = 1 := by omega
    rw [hone]
  · intro c k v h
    simp [RollingCache.get, h]
  · intro c k h
    simp [RollingCache.get, h]

/-- Witness for C9 at capacity 2 with three distinct keys, a hit on a
present key, and a miss on an absent key. -/
theorem lru_cache_correct_witness :
    ((insertAll (createCache Int ((2 : ℕ) : ℚ)) [("a", 1), ("b", 2), ("c", 3)]).entries
        = [("a", (1 : Int)), ("b", 2), ("c", 3)].drop 1)
  ∧ (RollingCache.get ⟨2, [("b", (2 : Int)), ("c", 3)]⟩ "b"
        = (some 2, { (⟨2, [("b", (2 : Int)), ("c", 3)]⟩ : RollingCache Int) with
            entries := removeKey "b" [("b", (2 : Int)), ("c", 3)] ++ [("b", 2)] }))
  ∧ (RollingCache.get ⟨2, [("b", (2 : Int)), ("c", 3)]⟩ "zz"
        = (none, ⟨2, [("b", (2 : Int)), ("c", 3)]⟩)) :=
  ⟨lru_cache_correct.1 2 (by decide) [("a", 1), ("b", 2), ("c", 3)]
      (by decide) (by decide),
   lru_cache_correct.2.1 ⟨2, [("b", (2 : Int)), ("c", 3)]⟩ "b" 2 (by decide),
   lru_cache_correct.2.2 ⟨2, [("b", (2 : Int)), ("c", 3)]⟩ "zz" (by decide)⟩

/-! Claim C10 -/

/-- C10: for every size argument (negative, zero or fractional included)
and every sequence of set/get/reset calls, the number of entries never
exceeds max(0, floor(size)); the capacity is clamped at construction, and
at clamped capacity 0 every set is a no-op. -/
theorem cache_size_invariant {V : Type} :
    (∀ (size : ℚ) (ops : List (CacheOp V)),
       (ops.foldl applyOp (createCache V size)).entries.length
         ≤ (max 0 ⌊size⌋).toNat)
  ∧ (∀ (size : ℚ), (createCache V size).capacity = (max 0 ⌊size⌋).toNat)
  ∧ (∀ (c : RollingCache V) (k : String) (v : V),
       c.capacity = 0 → c.set k v = c) := by
  refine ⟨?_, fun _ => rfl, ?_⟩
  · intro size ops
    have h := foldl_applyOp_inv ops (createCache V size) (by simp [createCache])
    calc (ops.foldl applyOp (createCache V size)).entries.length
        ≤ (ops.foldl applyOp (createCache V size)).capacity := h.1
      _ = (max 0 ⌊size⌋).toNat := h.2
  · intro c k v h
    simp [RollingCache.set, h]

/-- Witness for C10 at a negative fractional size and a concrete call
sequence, plus a capacity-0 set. -/
theorem cache_size_invariant_witness :
    (([CacheOp.set "a" (5 : Int), CacheOp.get "a", CacheOp.set "b" 6].foldl applyOp
        (createCache Int (-7/2 : ℚ))).entries.length ≤ (max 0 ⌊(-7/2 : ℚ)⌋).toNat)
  ∧ ((createCache Int (-7/2 : ℚ)).capacity = (max 0 ⌊(-7/2 : ℚ)⌋).toNat)
  ∧ (RollingCache.set ⟨0, []⟩ "x" (1 : Int) = ⟨0, []⟩) :=
  ⟨cache_size_invariant.1 (-7/2) [CacheOp.set "a" 5, CacheOp.get "a", CacheOp.set "b" 6],
   cache_size_invariant.2.1 (-7/2),
   cache_size_invariant.2.2 ⟨0, []⟩ "x" 1 rfl⟩

/-! Claim C2 -/

theorem filterMap_valueSlot_map {T E : Type} (vs : List T) :
    vs.filterMap (valueSlot ∘ Resp.value (E := E)) = vs := by
  induction vs with
  | nil => rfl
  | cons v rest ih => simp [List.filterMap_cons, Function.comp, valueSlot, ih]

/-- C2: for a tuple of latest input envelopes the combined envelope is
Loading if any input is Loading; otherwise, if any input is in Error, an
Error whose payload is the positional array holding slot-wise the input's
error payload for Error inputs and `false` (modelled none) for the rest;
otherwise the Value obtained by applying the reducer to the tuple of
unwrapped input values. -/
theorem combine_envelopes_cases {T E R₂ : Type} (events : List (Resp T E))
    (reducer : List T → R₂) :
    ((∃ x ∈ events, x = Resp.loading) →
        combineEnvelopes events reducer = .loading)
  ∧ ((∀ x ∈ events, x ≠ Resp.loading) → (∃ x ∈ events, isError x = true) →
        combineEnvelopes events reducer = .error (events.map errSlot)
          ∧ (events.map errSlot).length = events.length
          ∧ ∀ (k : Nat), (events.map errSlot)[k]? = (events[k]?).map errSlot)
  ∧ (∀ (vs : List T), events = vs.map Resp.value →
        combineEnvelopes events reducer = .value (reducer vs)) := by
  refine ⟨?_, ?_, ?_⟩
  · rintro ⟨x, hx, rfl⟩
    have hany : (events.any fun x => isLoading x) = true :=
      List.any_eq_true.mpr ⟨Resp.loading, hx, rfl⟩
    simp [combineEnvelopes, hany]
  · intro hnl herr
    have hanyl : (events.any fun x => isLoading x) = false := by
      rw [List.any_eq_false]
      intro x hx
      cases x with
      | loading => exact absurd rfl (hnl _ hx)
      | error e => simp [isLoading]
      | value t => simp [isLoading]
    have hanye : (events.any fun x => isError x) = true := List.any_eq_true.mpr herr
    refine ⟨by simp [combineEnvelopes, hanyl, hanye], by simp, ?_⟩
    intro k
    simp [List.getElem?_map]
  · rintro vs rfl
    have hanyl : ((vs.map (Resp.value (E := E))).any fun x => isLoading x) = false := by
      rw [List.any_eq_false]
      rintro x hx
      obtain ⟨v, _, rfl⟩ := List.mem_map.mp hx
      simp [isLoading]
    have hanye : ((vs.map (Resp.value (E := E))).any fun x => isError x) = false := by
      rw [List.any_eq_false]
      rintro x hx
      obtain ⟨v, _, rfl⟩ := List.mem_map.mp hx
      simp [isError]
    simp [combineEnvelopes, hanyl, hanye, filterMap_valueSlot_map]

/-- Witness for C2: one Loading tuple, the spec's Error example (payload
positionally some e1 then none, i.e. false), and an all-Value tuple fed to
a summing reducer. -/
theorem combine_envelopes_cases_witness :
    (combineEnvelopes [(Resp.loading : Resp Nat String), Resp.value 2]
        (fun vs : List Nat => vs.foldl (fun a b => a + b) 0) = .loading)
  ∧ (combineEnvelopes [(Resp.error "e1" : Resp Nat String), Resp.value 2]
        (fun vs : List Nat => vs.foldl (fun a b => a + b) 0)
      = .error ([(Resp.error "e1" : Resp Nat String), Resp.value 2].map errSlot))
  ∧ ([(Resp.error "e1" : Resp Nat String), Resp.value 2].map errSlot
      = [some "e1", none])
  ∧ (combineEnvelopes [(Resp.value 1 : Resp Nat String), Resp.value 2]
        (fun vs : List Nat => vs.foldl (fun a b => a + b) 0)
      = .value ((([1, 2] : List Nat)).foldl (fun a b => a + b) 0)) :=
  ⟨(combine_envelopes_cases [(Resp.loading : Resp Nat String), Resp.value 2] _).1
      ⟨Resp.loading, by simp, rfl⟩,
   ((combine_envelopes_cases [(Resp.error "e1" : Resp Nat String), Resp.value 2] _).2.1
      (by decide) ⟨Resp.error "e1", by simp, rfl⟩).1,
   by decide,
   (combine_envelopes_cases [(Resp.value 1 : Resp Nat String), Resp.value 2] _).2.2
      [1, 2] rfl⟩

/-! Claim C6 -/

theorem nodeWarnings_ne_error {T E : Type} (nd : String × Nat) (meta : List Int)
    (r : Resp T E) (h : isError r = false) : nodeWarnings nd meta r = [] := by
  cases r with
  | loading => rfl
  | error e => simp [isError] at h
  | value t => rfl

theorem lineageWarnings_nil_of {T E : Type} (nodes : List (String × Nat))
    (meta : List Int) (r : Resp T E)
    (h : ∀ nd, nodeWarnings nd meta r = []) : lineageWarnings nodes meta r = [] := by
  induction nodes with
  | nil => rfl
  | cons nd rest ih =>
    show nodeWarnings nd meta r ++ lineageWarnings rest meta r = []
    rw [h nd, ih]
    rfl

/-- C6 counterexample: a two-node lineage with a zero counter and a single
Error envelope produces one warning per node — two warnings, not the
exactly-one warning the claim states (the repository's own test expects
one warning per chained node). -/
theorem lineage_warning_duplicated_cex :
    (lineageWarnings [("unnamed", 0), ("unnamed", 1)] [0]
        (Resp.error (T := Nat) "err")
      = [("unnamed", 0, "err"), ("unnamed", 1, "err")])
  ∧ (lineageWarnings [("unnamed", 0), ("unnamed", 1)] [0]
        (Resp.error (T := Nat) "err")).length ≠ 1 := by
  constructor
  · rfl
  · decide

/-- C6 (amended): when the lineage-wide error-subscriber counters are all
zero, every node the Error envelope flows through produces exactly one
warning carrying its own name and index (k warnings for a k-node lineage,
duplicated per descendant); any non-zero counter — in particular after an
error-channel subscription incremented all shared counters — suppresses
every warning, and non-Error envelopes never produce warnings. -/
theorem lineage_warning_per_node {T E : Type} (nodes : List (String × Nat))
    (meta : List Int) (e : E) :
    ((∀ m ∈ meta, m = 0) →
        lineageWarnings (T := T) nodes meta (.error e)
          = nodes.map (fun nd => (nd.1, nd.2, e)))
  ∧ ((∃ m ∈ meta, m ≠ 0) → ∀ (r : Resp T E), lineageWarnings nodes meta r = [])
  ∧ (meta ≠ [] → (∀ m ∈ meta, 0 ≤ m) →
        ∀ (r : Resp T E), lineageWarnings nodes (subscribeError meta) r = [])
  ∧ (lineageWarnings (T := T) nodes meta (.loading : Resp T E) = []
      ∧ ∀ (t : T), lineageWarnings (E := E) nodes meta (.value t) = []) := by
  have hwarn : ∀ (meta' : List Int), (∃ m ∈ meta', m ≠ 0) →
      ∀ (r : Resp T E) nd, nodeWarnings nd meta' r = [] := by
    intro meta' hex r nd
    have hany : (meta'.any fun m => m ≠ 0) = true := by
      rw [List.any_eq_true]
      obtain ⟨m, hm, hne⟩ := hex
      exact ⟨m, hm, by simpa using hne⟩
    cases r with
    | loading => rfl
    | error e2 =>
      simp only [nodeWarnings, hany]
      simp
    | value t => rfl
  refine ⟨?_, ?_, ?_, ?_, ?_⟩
  · intro hz
    have hany : (meta.any fun m => m ≠ 0) = false := by
      rw [List.any_eq_false]
      intro m hm
      simpa using hz m hm
    induction nodes with
    | nil => rfl
    | cons nd rest ih =>
      show nodeWarnings nd meta (.error e) ++ lineageWarnings rest meta (.error e)
        = (nd.1, nd.2, e) :: rest.map (fun nd => (nd.1, nd.2, e))
      rw [ih]
      simp only [nodeWarnings, hany]
      simp
  · intro hex r
    exact lineageWarnings_nil_of nodes meta r (fun nd => hwarn meta hex r nd)
  · intro hne hpos r
    obtain ⟨m0, hm0⟩ := List.exists_mem_of_ne_nil meta hne
    have hex : ∃ m ∈ subscribeError meta, m ≠ 0 := by
      refine ⟨m0 + 1, List.mem_map_of_mem _ hm0, ?_⟩
      have := hpos m0 hm0
      omega
    exact lineageWarnings_nil_of nodes (subscribeError meta) r
      (fun nd => hwarn (subscribeError meta) hex r nd)
  · exact lineageWarnings_nil_of nodes meta .loading
      (fun nd => nodeWarnings_ne_error nd meta .loading rfl)
  · intro t
    exact lineageWarnings_nil_of nodes meta (.value t)
      (fun nd => nodeWarnings_ne_error nd meta (.value t) rfl)

/-- Witness for C6 (amended): a three-node lineage at counter zero yields
three warnings, one per node with its own index; after an error-channel
subscription the warnings are suppressed. -/
theorem lineage_warning_per_node_witness :
    (lineageWarnings [("unnamed", 0), ("unnamed", 1), ("unnamed", 2)] [0]
        (Resp.error (T := Nat) "err")
      = [("unnamed", 0), ("unnamed", 1), ("unnamed", 2)].map
          (fun nd => (nd.1, nd.2, "err")))
  ∧ (lineageWarnings [("unnamed", 0), ("unnamed", 1), ("unnamed", 2)]
        (subscribeError [0]) (Resp.error (T := Nat) "err") = []) :=
  ⟨(lineage_warning_per_node [("unnamed", 0), ("unnamed", 1), ("unnamed", 2)]
      [0] "err").1 (by decide),
   (lineage_warning_per_node (T := Nat) [("unnamed", 0), ("unnamed", 1), ("unnamed", 2)]
      [0] "err").2.2.1 (by decide) (by decide) (Resp.error "err")⟩

/-! Notification-trace lemmas -/

theorem innerEmissions_catch_all_next {T X : Type} (tr : List (Notif (Resp T X) X)) :
    ∀ n ∈ innerEmissions (catchResponseErrorT tr), ∃ r, n = Notif.next r := by
  induction tr with
  | nil => intro n hn; simp [catchResponseErrorT, innerEmissions] at hn
  | cons hd rest ih =>
    cases hd with
    | next r =>
      intro n hn
      simp only [catchResponseErrorT, innerEmissions, List.mem_cons] at hn
      rcases hn with rfl | hn
      · exact ⟨r, rfl⟩
      · exact ih n hn
    | fail x =>
      intro n hn
      simp only [catchResponseErrorT, innerEmissions, List.mem_cons,
        List.not_mem_nil, or_false] at hn
      exact ⟨.error x, hn⟩
    | complete =>
      intro n hn
      simp [catchResponseErrorT, innerEmissions] at hn

theorem truncTerm_append_nexts {T X : Type} (l rest : List (Notif T X))
    (h : ∀ n ∈ l, ∃ r, n = Notif.next r) :
    truncTerm (l ++ rest) = l ++ truncTerm rest := by
  induction l with
  | nil => rfl
  | cons hd tl ih =>
    obtain ⟨r, rfl⟩ := h hd (List.mem_cons_self hd tl)
    show truncTerm (.next r :: (tl ++ rest)) = .next r :: (tl ++ truncTerm rest)
    rw [show truncTerm (.next r :: (tl ++ rest)) = .next r :: truncTerm (tl ++ rest)
      from rfl]
    rw [ih (fun n hn => h n (List.mem_cons_of_mem _ hn))]

theorem mem_truncTerm {T X : Type} (l : List (Notif T X)) :
    ∀ n ∈ truncTerm l, n ∈ l := by
  induction l with
  | nil => intro n hn; exact hn
  | cons hd tl ih =>
    cases hd with
    | next t =>
      intro n hn
      rcases List.mem_cons.mp hn with rfl | hn
      · exact List.mem_cons_self _ _
      · exact List.mem_cons_of_mem _ (ih n hn)
    | fail x =>
      intro n hn
      rcases List.mem_cons.mp hn with rfl | hn
      · exact List.mem_cons_self _ _
      · simp at hn
    | complete =>
      intro n hn
      rcases List.mem_cons.mp hn with rfl | hn
      · exact List.mem_cons_self _ _
      · simp at hn

theorem catch_map_next_fail {T X : Type} (pre : List (Resp T X)) (x : X) :
    innerEmissions (catchResponseErrorT (pre.map Notif.next ++ [Notif.fail x]))
      = pre.map Notif.next ++ [Notif.next (.error x)] := by
  induction pre with
  | nil => rfl
  | cons r rest ih =>
    show Notif.next r :: innerEmissions (catchResponseErrorT
        (rest.map Notif.next ++ [Notif.fail x]))
      = Notif.next r :: (rest.map Notif.next ++ [Notif.next (.error x)])
    rw [ih]

/-! Claim C8 -/

/-- C8: pipeValue hands the supplied operator chain only the unwrapped
success payloads; Loading and Error envelopes bypass the chain unchanged
and are merged back with the transformed values; an error raised inside
the chain (after any prefix of emitted values) is caught and re-wrapped as
an Error envelope; and the operator chain can introduce no terminal stream
error into the output. -/
theorem pipeValue_correct {T U X : Type} (ops : T → List (Notif (Resp U X) X)) :
    (∀ (t : T) (rest : List (Notif (Resp T X) X)),
        pipeValueT ops (.next (.value t) :: rest)
          = innerEmissions (catchResponseErrorT (ops t)) ++ pipeValueT ops rest)
  ∧ (∀ (rest : List (Notif (Resp T X) X)),
        pipeValueT ops (.next .loading :: rest)
          = .next .loading :: pipeValueT ops rest)
  ∧ (∀ (e : X) (rest : List (Notif (Resp T X) X)),
        pipeValueT ops (.next (.error e) :: rest)
          = .next (.error e) :: pipeValueT ops rest)
  ∧ (∀ (t : T) (pre : List (Resp U X)) (x : X),
        ops t = pre.map Notif.next ++ [Notif.fail x] →
        innerEmissions (catchResponseErrorT (ops t))
          = pre.map Notif.next ++ [Notif.next (.error x)])
  ∧ (∀ (src : List (Notif (Resp T X) X)), (∀ n ∈ src, ∀ x, n ≠ .fail x) →
        ∀ n ∈ pipeValueT ops src, ∀ x, n ≠ .fail x) := by
  refine ⟨?_, ?_, ?_, ?_, ?_⟩
  · intro t rest
    show truncTerm ((notValueBranchH (.next (.value t))
        ++ pipedValueBranchH ops (.next (.value t)))
        ++ rest.flatMap fun n => notValueBranchH n ++ pipedValueBranchH ops n) = _
    show truncTerm (([] ++ innerEmissions (catchResponseErrorT (ops t)))
        ++ rest.flatMap fun n => notValueBranchH n ++ pipedValueBranchH ops n) = _
    rw [List.nil_append,
      truncTerm_append_nexts _ _ (innerEmissions_catch_all_next (ops t))]
    rfl
  · intro rest
    rfl
  · intro e rest
    rfl
  · intro t pre x h
    rw [h]
    exact catch_map_next_fail pre x
  · intro src hsrc n hn x
    have hn2 := mem_truncTerm _ n hn
    rw [List.mem_flatMap] at hn2
    obtain ⟨n0, hn0, hmem⟩ := hn2
    rcases List.mem_append.mp hmem with hb | hb
    · cases n0 with
      | next r =>
        cases r with
        | loading => simp only [notValueBranchH, List.mem_singleton] at hb; simp [hb]
        | error e => simp only [notValueBranchH, List.mem_singleton] at hb; simp [hb]
        | value t0 => simp [notValueBranchH] at hb
      | fail x0 => exact absurd rfl (hsrc _ hn0 x0)
      | complete => simp only [notValueBranchH, List.mem_singleton] at hb; simp [hb]
    · cases n0 with
      | next r =>
        cases r with
        | loading => simp [pipedValueBranchH] at hb
        | error e => simp [pipedValueBranchH] at hb
        | value t0 =>
          obtain ⟨r0, rfl⟩ := innerEmissions_catch_all_next (ops t0) n hb
          simp
      | fail x0 => exact absurd rfl (hsrc _ hn0 x0)
      | complete => simp only [pipedValueBranchH, List.mem_singleton] at hb; simp [hb]

/-- Witness for C8: a mapping chain receives the payload 3 directly, and a
chain that raises after no emissions is re-wrapped as an Error envelope. -/
theorem pipeValue_correct_witness :
    (pipeValueT (fun t : Nat => [Notif.next (Resp.value (t + 1)), Notif.complete])
        [.next (.value 3), .complete]
      = innerEmissions (catchResponseErrorT
          ((fun t : Nat => [Notif.next (Resp.value (t + 1)),
            (Notif.complete : Notif (Resp Nat String) String)]) 3))
        ++ pipeValueT (fun t : Nat => [Notif.next (Resp.value (t + 1)), Notif.complete])
            [(Notif.complete : Notif (Resp Nat String) String)])
  ∧ (innerEmissions (catchResponseErrorT
        ((fun _ : Nat => [(Notif.fail "boom" : Notif (Resp Nat String) String)]) 3))
      = List.map Notif.next [] ++ [Notif.next (.error "boom")]) :=
  ⟨(pipeValue_correct (fun t : Nat =>
      [Notif.next (Resp.value (t + 1)), Notif.complete])).1 3 [.complete],
   (pipeValue_correct (fun _ : Nat =>
      [(Notif.fail "boom" : Notif (Resp Nat String) String)])).2.2.2.1 3 [] "boom" rfl⟩

/-! Claim C7 -/

/-- C7 counterexample: an operator chain passed to pipeError that throws
while mapping the error payload terminates the derived stream with a
terminal error signal; the output contains no Error envelope at all, so
the thrown error is not normalized to a TransformFailure envelope and the
stream does terminate — contrary to the claim. -/
theorem pipeError_throw_cex :
    (pipeErrorT (T := Nat)
        (mapThrowH (fun _ : String => (Except.error "boom" : Except String String)))
        [.next (.error "e0"), .complete] = [.fail "boom"])
  ∧ ¬ (∃ e : String, Notif.next (Resp.error (T := Nat) e) ∈
        pipeErrorT (T := Nat)
          (mapThrowH (fun _ : String => (Except.error "boom" : Except String String)))
          [.next (.error "e0"), .complete]) := by
  constructor
  · rfl
  · rintro ⟨e, he⟩
    rw [show pipeErrorT (T := Nat)
        (mapThrowH (fun _ : String => (Except.error "boom" : Except String String)))
        [.next (.error "e0"), .complete] = [.fail "boom"] from rfl] at he
    simp at he

/-- C7 (amended): when an operator passed to pipeError throws while mapping
an error payload, the thrown error propagates as the terminal error signal
of the derived node's stream — it does not silently disappear, but it is
not normalized to an Error envelope and the stream terminates (pipeError,
unlike pipeValue, applies no catchResponseError). -/
theorem pipeError_throw_terminates {T E E₂ X : Type} (g : E → Except X E₂)
    (e : E) (x : X) (rest : List (Notif (Resp T E) X)) (h : g e = .error x) :
    pipeErrorT (T := T) (mapThrowH g) (.next (.error e) :: rest) = [.fail x] := by
  show truncTerm ((hseq (hseq errPayloadH (mapThrowH g)) wrapErrorH (.next (.error e))
      ++ notErrorBranchH (.next (.error e)))
      ++ rest.flatMap fun n =>
        hseq (hseq errPayloadH (mapThrowH g)) (wrapErrorH (T := T)) n
          ++ notErrorBranchH n) = [.fail x]
  have hh : hseq (hseq (errPayloadH (T := T)) (mapThrowH g)) (wrapErrorH (T := T))
      (.next (.error e)) = [.fail x] := by
    show ((errPayloadH (T := T) (.next (.error e))).flatMap
        (mapThrowH g)).flatMap (wrapErrorH (T := T)) = [.fail x]
    show (((mapThrowH g) (.next e)) ++ []).flatMap (wrapErrorH (T := T)) = [.fail x]
    simp [mapThrowH, h, wrapErrorH]
  rw [hh]
  rfl

/-- Witness for C7 (amended) at a concrete throwing operator. -/
theorem pipeError_throw_terminates_witness :
    pipeErrorT (T := Nat)
      (mapThrowH (fun _ : String => (Except.error "tf" : Except String String)))
      [.next (.error "e1")] = [.fail "tf"] :=
  pipeError_throw_terminates
    (fun _ : String => (Except.error "tf" : Except String String)) "e1" "tf" [] rfl

/-! Engine lemmas -/

theorem set_empty {V : Type} (cap : Nat) (hcap : cap ≠ 0) (k : String) (v : V) :
    RollingCache.set ⟨cap, []⟩ k v = ⟨cap, [(k, v)]⟩ := by
  have h1 : ¬ (0 + 1 > cap) := by omega
  simp [RollingCache.set, hcap, evictOldest, h1]

theorem get_single_hit {V : Type} (cap : Nat) (k : String) (v : V) :
    RollingCache.get ⟨cap, [(k, v)]⟩ k = (some v, ⟨cap, [(k, v)]⟩) := by
  simp [RollingCache.get, lookupKey, removeKey]

theorem settleEvent_fresh_succeeds {Input R E : Type} (cfg : EngineConfig Input R E)
    (i : Input) (r : R) (cap : Nat) (hcap : cap ≠ 0)
    (hload : cfg.loader i = .succeeds r)
    (hkey : String.intercalate "|" (cfg.cacheKey i) ≠ "") :
    settleEvent cfg ⟨cap, []⟩ i
      = ⟨.value r, ⟨cap, [(String.intercalate "|" (cfg.cacheKey i), r)]⟩, 1, false⟩ := by
  simp only [settleEvent]
  rw [if_pos hkey]
  rw [show RollingCache.get ⟨cap, []⟩ (String.intercalate "|" (cfg.cacheKey i))
    = (none, ⟨cap, []⟩) from rfl]
  show runLoader cfg ⟨cap, []⟩ i (String.intercalate "|" (cfg.cacheKey i)) = _
  unfold runLoader
  rw [hload]
  simp [set_empty cap hcap]

theorem settleEvent_single_hit {Input R E : Type} (cfg : EngineConfig Input R E)
    (i : Input) (v : R) (cap : Nat)
    (hkey : String.intercalate "|" (cfg.cacheKey i) ≠ "")
    (htru : cfg.truthy v = true) :
    settleEvent cfg ⟨cap, [(String.intercalate "|" (cfg.cacheKey i), v)]⟩ i
      = ⟨.value v, ⟨cap, [(String.intercalate "|" (cfg.cacheKey i), v)]⟩, 0, false⟩ := by
  simp only [settleEvent]
  rw [if_pos hkey, get_single_hit]
  simp [htru]

theorem settleEvent_createCache_succeeds {Input R E : Type}
    (cfg : EngineConfig Input R E) (i : Input) (r : R)
    (hload : cfg.loader i = .succeeds r)
    (hkey : String.intercalate "|" (cfg.cacheKey i) ≠ "")
    (hcap : (max 0 ⌊cfg.cacheSize⌋).toNat ≠ 0) :
    settleEvent cfg (createCache R cfg.cacheSize) i
      = ⟨.value r, ⟨(max 0 ⌊cfg.cacheSize⌋).toNat,
          [(String.intercalate "|" (cfg.cacheKey i), r)]⟩, 1, false⟩ :=
  settleEvent_fresh_succeeds cfg i r _ hcap hload hkey

theorem settleEvent_not_loading {Input R E : Type} (cfg : EngineConfig Input R E)
    (cache : RollingCache R) (i : Input) :
    isLoading (settleEvent cfg cache i).settled = false := by
  simp only [settleEvent, runLoader]
  repeat' split
  all_goals rfl

theorem step_emit_notdead {Input R E : Type} (cfg : EngineConfig Input R E)
    (st : EngineState Input R) (i : Input)
    (hsd : st.srcDead = false) (hve : st.veDead = false) :
    step cfg st (.emit (E := E) i)
      = ([.next .loading, .next (settleEvent cfg st.cache i).settled],
         { st with cache := (settleEvent cfg st.cache i).cache,
                   veDead := (settleEvent cfg st.cache i).dead,
                   lastInput := some i },
         (settleEvent cfg st.cache i).loaderCalls) := by
  obtain ⟨cache, ve, sd, li⟩ := st
  have hsd2 : sd = false := hsd
  have hve2 : ve = false := hve
  subst hsd2
  subst hve2
  rfl

theorem step_reload_notdead {Input R E : Type} (cfg : EngineConfig Input R E)
    (st : EngineState Input R) (i : Input)
    (hsd : st.srcDead = false) (hve : st.veDead = false)
    (hli : st.lastInput = some i) :
    step cfg st (.reload (E := E))
      = ([.next .loading,
          .next (settleEvent cfg (createCache R cfg.cacheSize) i).settled],
         { st with cache := (settleEvent cfg (createCache R cfg.cacheSize) i).cache,
                   veDead := (settleEvent cfg (createCache R cfg.cacheSize) i).dead },
         (settleEvent cfg (createCache R cfg.cacheSize) i).loaderCalls) := by
  obtain ⟨cache, ve, sd, li⟩ := st
  have hsd2 : sd = false := hsd
  have hve2 : ve = false := hve
  have hli2 : li = some i := hli
  subst hsd2
  subst hve2
  subst hli2
  rfl

theorem step_emit_vedead {Input R E : Type} (cfg : EngineConfig Input R E)
    (st : EngineState Input R) (i : Input)
    (hsd : st.srcDead = false) (hve : st.veDead = true) :
    step cfg st (.emit (E := E) i)
      = ([.next .loading], { st with lastInput := some i }, 0) := by
  obtain ⟨cache, ve, sd, li⟩ := st
  have hsd2 : sd = false := hsd
  have hve2 : ve = true := hve
  subst hsd2
  subst hve2
  rfl

theorem step_reload_vedead {Input R E : Type} (cfg : EngineConfig Input R E)
    (st : EngineState Input R) (i : Input)
    (hsd : st.srcDead = false) (hve : st.veDead = true)
    (hli : st.lastInput = some i) :
    step cfg st (.reload (E := E))
      = ([.next .loading], { st with cache := createCache R cfg.cacheSize }, 0) := by
  obtain ⟨cache, ve, sd, li⟩ := st
  have hsd2 : sd = false := hsd
  have hve2 : ve = true := hve
  have hli2 : li = some i := hli
  subst hsd2
  subst hve2
  subst hli2
  rfl

/-! Claim C1 -/

/-- C1: for every causal event (a new source value, or reload() when a
source value has been seen) on a live engine node, the raw stream emits a
Loading envelope first, strictly before the settled envelope of that event
(the tail holds only non-Loading envelopes) — cache hits included, since
the settled branch never produces a Loading envelope. -/
theorem loading_precedes_settled {Input R E : Type} (cfg : EngineConfig Input R E)
    (st : EngineState Input R) (h : st.srcDead = false) :
    (∀ i : Input,
        (step cfg st (.emit (E := E) i)).1.head? = some (.next .loading)
      ∧ ∀ n ∈ ((step cfg st (.emit (E := E) i)).1).tail,
          ∃ r, n = Notif.next r ∧ isLoading r = false)
  ∧ (∀ i : Input, st.lastInput = some i →
        (step cfg st (.reload (E := E))).1.head? = some (.next .loading)
      ∧ ∀ n ∈ ((step cfg st (.reload (E := E))).1).tail,
          ∃ r, n = Notif.next r ∧ isLoading r = false) := by
  constructor
  · intro i
    cases hve : st.veDead with
    | false =>
      rw [step_emit_notdead cfg st i h hve]
      refine ⟨rfl, ?_⟩
      intro n hn
      simp only [List.tail_cons, List.mem_singleton] at hn
      subst hn
      exact ⟨_, rfl, settleEvent_not_loading cfg st.cache i⟩
    | true =>
      rw [step_emit_vedead cfg st i h hve]
      refine ⟨rfl, ?_⟩
      intro n hn
      simp at hn
  · intro i hli
    cases hve : st.veDead with
    | false =>
      rw [step_reload_notdead cfg st i h hve hli]
      refine ⟨rfl, ?_⟩
      intro n hn
      simp only [List.tail_cons, List.mem_singleton] at hn
      subst hn
      exact ⟨_, rfl, settleEvent_not_loading cfg (createCache R cfg.cacheSize) i⟩
    | true =>
      rw [step_reload_vedead cfg st i h hve hli]
      refine ⟨rfl, ?_⟩
      intro n hn
      simp at hn

/-- Witness for C1 on a node whose cache already holds the key, so the
settled result of the emit is a synchronous cache hit, plus a reload. -/
theorem loading_precedes_settled_witness :
    ((step cfgHit stHit (.emit 5)).1.head? = some (.next .loading))
  ∧ ((step cfgHit stHit (.reload)).1.head? = some (.next .loading)) :=
  ⟨((loading_precedes_settled cfgHit stHit rfl).1 5).1,
   ((loading_precedes_settled cfgHit stHit rfl).2 1 rfl).1⟩

/-! Claim C3 -/

/-- C3 counterexample: with loader result 0 (a falsy JS number) and the
non-empty key "k", the first submission stores ("k", 0) in the unchanged
cache generation, yet re-submitting the same input invokes the loader a
second time, because the engine tests the cached value with JS truthiness
(if (cached)) and 0 is falsy. -/
theorem cache_idempotence_falsy_cex :
    (lookupKey "k" ((step cfgFalsy stFalsy (.emit 1)).2.1.cache.entries)
        = some 0)
  ∧ ((runEngine cfgFalsy stFalsy [.emit 1, .emit 1]).2.2 = 2) := by
  constructor
  · decide
  · decide

/-- C3 (amended): with a non-empty cache key and a loader result that is
truthy, re-submitting an input whose key was already stored while the cache
generation is unchanged never re-invokes the loader and replays the cached
Value, and a single reload() forces exactly one additional loader
invocation for that key. -/
theorem cache_idempotence_truthy {Input R E : Type} (cfg : EngineConfig Input R E)
    (i : Input) (r : R)
    (hload : cfg.loader i = .succeeds r) (htru : cfg.truthy r = true)
    (hkey : String.intercalate "|" (cfg.cacheKey i) ≠ "")
    (hcap : (max 0 ⌊cfg.cacheSize⌋).toNat ≠ 0) :
    ((runEngine cfg (initState cfg) [.emit i, .emit i]).2.2 = 1)
  ∧ ((runEngine cfg (initState cfg) [.emit i, .emit i]).1
      = [.next .loading, .next (.value r), .next .loading, .next (.value r)])
  ∧ ((runEngine cfg (initState cfg)
        [.emit i, .emit i, .reload, .emit i, .emit i]).2.2 = 2) := by
  have hs1 := settleEvent_createCache_succeeds cfg i r hload hkey hcap
  have hs2 := settleEvent_single_hit cfg i r (max 0 ⌊cfg.cacheSize⌋).toNat hkey htru
  have e1 : step cfg (initState cfg) (.emit i)
      = ([.next .loading, .next (.value r)],
         ⟨⟨(max 0 ⌊cfg.cacheSize⌋).toNat,
            [(String.intercalate "|" (cfg.cacheKey i), r)]⟩, false, false, some i⟩,
         1) := by
    rw [step_emit_notdead cfg (initState cfg) i rfl rfl]
    rw [show (initState cfg).cache = createCache R cfg.cacheSize from rfl, hs1]
    rfl
  have e2 : step cfg
      (⟨⟨(max 0 ⌊cfg.cacheSize⌋).toNat,
          [(String.intercalate "|" (cfg.cacheKey i), r)]⟩, false, false, some i⟩ :
        EngineState Input R) (.emit i)
      = ([.next .loading, .next (.value r)],
         ⟨⟨(max 0 ⌊cfg.cacheSize⌋).toNat,
            [(String.intercalate "|" (cfg.cacheKey i), r)]⟩, false, false, some i⟩,
         0) := by
    rw [step_emit_notdead cfg _ i rfl rfl, hs2]
  have e3 : step cfg
      (⟨⟨(max 0 ⌊cfg.cacheSize⌋).toNat,
          [(String.intercalate "|" (cfg.cacheKey i), r)]⟩, false, false, some i⟩ :
        EngineState Input R) (.reload)
      = ([.next .loading, .next (.value r)],
         ⟨⟨(max 0 ⌊cfg.cacheSize⌋).toNat,
            [(String.intercalate "|" (cfg.cacheKey i), r)]⟩, false, false, some i⟩,
         1) := by
    rw [step_reload_notdead cfg _ i rfl rfl rfl, hs1]
  refine ⟨?_, ?_, ?_⟩
  · simp [runEngine, e1, e2]
  · simp [runEngine, e1, e2]
  · simp [runEngine, e1, e2, e3]

/-- Witness for C3 (amended) on a concrete engine with a truthy loader. -/
theorem cache_idempotence_truthy_witness :
    ((runEngine cfgHit (initState cfgHit) [.emit 5, .emit 5]).2.2 = 1)
  ∧ ((runEngine cfgHit (initState cfgHit) [.emit 5, .emit 5]).1
      = [.next .loading, .next (.value 10), .next .loading, .next (.value 10)])
  ∧ ((runEngine cfgHit (initState cfgHit)
        [.emit 5, .emit 5, .reload, .emit 5, .emit 5]).2.2 = 2) :=
  cache_idempotence_truthy cfgHit 5 10 rfl rfl (by decide) (by norm_num [cfgHit])

/-! Claim C4 -/

/-- C4: for an input whose derived cache key is empty the loader does
always run, but the successful result IS stored into the current cache
generation under the empty-string key — the tap calls cache.set(key,
result) unconditionally — which here evicts the previously cached entry
("a", 11), so the cache contents are changed by the event, contrary to the
claim and the factory's own documentation. -/
theorem empty_key_stores_result :
    ((runEngine cfgEmptyKey stCap1 [.emit 1]).2.1.cache.entries = [("a", 11)])
  ∧ ((runEngine cfgEmptyKey stCap1 [.emit 1, .emit 2]).2.1.cache.entries
      = [("", 12)])
  ∧ ((runEngine cfgEmptyKey stCap1 [.emit 1, .emit 2]).2.2 = 2) := by
  refine ⟨?_, ?_, ?_⟩ <;> decide

/-! Claim C5 -/

/-- C5: a loader that throws synchronously during invocation is converted
to an Error envelope (value, not stream termination), but the outer
catchResponseError permanently completes the valueOrError branch: the next
source emission produces only a Loading envelope and no settled envelope
ever follows, so the node does not transition back into a new Value or
Error as the claim requires. -/
theorem sync_throw_kills_settled :
    ((runEngine cfgThrows stCap42 [.emit 1, .emit 2]).1
      = [.next .loading, .next (.error "err"), .next .loading])
  ∧ ((runEngine cfgThrows stCap42 [.emit 1, .emit 2]).2.1.veDead = true)
  ∧ ((runEngine cfgThrows stCap42 [.emit 1, .emit 2]).2.2 = 1) := by
  refine ⟨?_, ?_, ?_⟩ <;> decide

end StatefulObs
